import Mathlib

/-!
Verification development for `tools/extract_chapter.py` of the
umineko-question repository.

The Python script is shallowly embedded: each Python function becomes a
Lean definition on `String` / `List Char`, stateful loops become explicit
state-passing recursions, regex substitutions become explicit scanners
that reproduce the (deterministic) behaviour of the concrete patterns
used by the script, and Python exceptions become `Except` values.

Unicode caveat: Python's `str.strip`, `\s`, `\w` and `str.lower` are
Unicode-aware.  The embedding restricts them to their ASCII behaviour
(the whitespace set of `str.strip` is modelled by its ASCII members,
`\w` by ASCII alphanumerics plus underscore, `lower` by ASCII lowering);
all inputs relevant to the claims are ASCII.
-/

set_option autoImplicit false

namespace Umineko

/-- ASCII part of the whitespace set stripped by Python `str.strip()`
and matched by the regex class `\s`. -/
def isPySpace (c : Char) : Bool :=
  c == ' ' || c == '\t' || c == '\n' || c == '\r' || c == '\x0b' || c == '\x0c'

/-- Horizontal whitespace, the class `[ \t]` of `WHITESPACE_RUN_PATTERN`. -/
def isHws (c : Char) : Bool :=
  c == ' ' || c == '\t'

/-- ASCII part of the regex class `\w` (used by `CONTROL_CODE_PATTERN`,
`!\w+`). -/
def isWordChar (c : Char) : Bool :=
  c.isAlphanum || c == '_'

/-- Python `str.strip()` on a character list (ASCII whitespace). -/
def pyStripL (l : List Char) : List Char :=
  ((l.dropWhile isPySpace).reverse.dropWhile isPySpace).reverse

/-- Python `str.strip()` on a `String`. -/
def pyStrip (s : String) : String :=
  String.mk (pyStripL s.toList)

/-- Python `str.replace` for a one-character pattern: every occurrence of
`p` is replaced by `repl`, scanning left to right. -/
def replace1 (p : Char) (repl : List Char) : List Char → List Char
  | [] => []
  | c :: rest =>
    if c = p then repl ++ replace1 p repl rest
    else c :: replace1 p repl rest

/-- Python `str.replace` for a two-character pattern: every
non-overlapping occurrence of `p₁p₂` is replaced by `repl`, scanning left
to right; after a replacement, scanning resumes after the occurrence. -/
def replace2 (p₁ p₂ : Char) (repl : List Char) : List Char → List Char
  | [] => []
  | [c] => [c]
  | c₁ :: c₂ :: rest =>
    if c₁ = p₁ ∧ c₂ = p₂ then repl ++ replace2 p₁ p₂ repl rest
    else c₁ :: replace2 p₁ p₂ repl (c₂ :: rest)

/-- One alternative of `VOICE_TAG_PATTERN` after the opening colon:
try to read keyword `kw`, then a space, then `[^:]*`, then the closing
colon; return the remainder of the line on success.  Mirrors the regex
`:(?:dwave_eng|dwave_jp|voicedelay|dwave) [^:]*:` of the source. -/
def tryVoiceKw (kw : List Char) (rest : List Char) : Option (List Char) :=
  if (kw ++ [' ']).isPrefixOf rest ∧
      [':'].isPrefixOf ((rest.drop (kw.length + 1)).dropWhile (fun c => c ≠ ':')) then
    some (((rest.drop (kw.length + 1)).dropWhile (fun c => c ≠ ':')).drop 1)
  else none

/-- Match `VOICE_TAG_PATTERN` at the head of the list, returning the
remainder after the match.  Alternatives are tried in the order of the
source regex (`dwave_eng`, `dwave_jp`, `voicedelay`, `dwave`). -/
def matchVoiceTag : List Char → Option (List Char)
  | [] => none
  | c :: rest =>
    if c = ':' then
      match tryVoiceKw "dwave_eng".toList rest with
      | some r => some r
      | none =>
        match tryVoiceKw "dwave_jp".toList rest with
        | some r => some r
        | none =>
          match tryVoiceKw "voicedelay".toList rest with
          | some r => some r
          | none => tryVoiceKw "dwave".toList rest
    else none

/-- Fuel-indexed scanner for `VOICE_TAG_PATTERN.sub("", ·)`: leftmost,
non-overlapping matches are deleted.  The fuel (initially the length of
the list) decreases by one per step while each step consumes at least
one character, so the initial fuel is always sufficient. -/
def subVoiceTagsGo : Nat → List Char → List Char
  | 0, l => l
  | _ + 1, [] => []
  | fuel + 1, c :: rest =>
    match matchVoiceTag (c :: rest) with
    | some remainder => subVoiceTagsGo fuel remainder
    | none => c :: subVoiceTagsGo fuel rest

/-- `VOICE_TAG_PATTERN.sub("", content)` of the source. -/
def subVoiceTags (l : List Char) : List Char :=
  subVoiceTagsGo l.length l

/-- Fuel-indexed scanner for `CONTROL_CODE_PATTERN.sub("", ·)` with
pattern `!\w+`: a `!` followed by a maximal nonempty run of word
characters is deleted; a bare `!` is kept. -/
def subBangWordGo : Nat → List Char → List Char
  | 0, l => l
  | _ + 1, [] => []
  | fuel + 1, c :: rest =>
    if c = '!' ∧ rest.takeWhile isWordChar ≠ [] then
      subBangWordGo fuel (rest.dropWhile isWordChar)
    else c :: subBangWordGo fuel rest

/-- `CONTROL_CODE_PATTERN.sub("", content)` of the source. -/
def subBangWord (l : List Char) : List Char :=
  subBangWordGo l.length l

/-- Fuel-indexed scanner for `WHITESPACE_RUN_PATTERN.sub(" ", ·)` with
pattern `[ \t]{2,}`: each maximal run of two or more spaces/tabs becomes
a single space. -/
def subWsRunGo : Nat → List Char → List Char
  | 0, l => l
  | _ + 1, [] => []
  | fuel + 1, c :: rest =>
    if isHws c ∧ rest.takeWhile isHws ≠ [] then
      ' ' :: subWsRunGo fuel (rest.dropWhile isHws)
    else c :: subWsRunGo fuel rest

/-- `WHITESPACE_RUN_PATTERN.sub(" ", content)` of the source. -/
def subWsRun (l : List Char) : List Char :=
  subWsRunGo l.length l

/-- Fuel-indexed scanner for `re.sub(r"\n{3,}", "\n\n", ·)`: each maximal
run of three or more newlines becomes exactly two. -/
def subNlRunGo : Nat → List Char → List Char
  | 0, l => l
  | _ + 1, [] => []
  | fuel + 1, c :: rest =>
    if c = '\n' ∧ ['\n', '\n'].isPrefixOf rest then
      '\n' :: '\n' :: subNlRunGo fuel (rest.dropWhile (fun x => x == '\n'))
    else c :: subNlRunGo fuel rest

/-- `re.sub(r"\n{3,}", "\n\n", content)` of the source. -/
def subNlRun (l : List Char) : List Char :=
  subNlRunGo l.length l

/-- Fuel-indexed scanner for `re.sub(r"^\s*:\s*", "", ·, flags=re.MULTILINE)`.
The boolean argument records whether the current position is a line start
(position 0 or just after a newline) of the original string.  At a line
start, a whitespace run followed by a colon followed by a whitespace run
(both runs greedy, possibly spanning newlines, matching the regex
engine's behaviour for `\s`) is deleted; otherwise one character is
emitted and scanning advances. -/
def subColonGo : Nat → Bool → List Char → List Char
  | 0, _, l => l
  | _ + 1, _, [] => []
  | fuel + 1, atStart, c :: rest =>
    if atStart ∧ [':'].isPrefixOf ((c :: rest).dropWhile isPySpace) then
      subColonGo fuel
        (decide (((((c :: rest).dropWhile isPySpace).drop 1).takeWhile isPySpace).getLast?
          = some '\n'))
        ((((c :: rest).dropWhile isPySpace).drop 1).dropWhile isPySpace)
    else c :: subColonGo fuel (c == '\n') rest

/-- `re.sub(r"^\s*:\s*", "", content, flags=re.MULTILINE)` of the source. -/
def subLineStartColon (l : List Char) : List Char :=
  subColonGo l.length true l

/-- The cleaning pipeline of `clean_lang_line` after the `langen` keyword
has been stripped, step by step in source order. -/
def cleanBody (content0 : List Char) : List Char :=
  let c1 := subVoiceTags content0
  let c2 := c1.dropWhile (fun c => c == ':' || c == ' ')
  let c3 := if ['^'].isPrefixOf c2 then c2.drop 1 else c2
  let c4 := replace1 '^' [] c3
  let c5 := replace2 '@' '/' ['\n'] c4
  let c6 := replace1 '@' ['\n'] c5
  let c7 := replace1 '\\' [] c6
  let c8 := subBangWord c7
  let c9 := replace2 '\\' '"' ['"'] c8
  let c10 := replace1 '"' ['"'] c9
  let c11 := subWsRun c10
  let c12 := subLineStartColon c11
  let c13 := subNlRun c12
  let c14 := c13.filter (fun c => c == '\n' || decide (32 ≤ c.toNat))
  pyStripL c14

/-- `clean_lang_line` of the source: strip, reject non-`langen` lines,
drop the keyword, then run the cleaning pipeline, and strip the result. -/
def clean_lang_line (raw : String) : String :=
  if "langen".toList.isPrefixOf (pyStripL raw.toList) then
    String.mk (cleanBody ((pyStripL raw.toList).drop 6))
  else ""

/-- The `SpeakerInfo` dataclass of the source: catalog metadata about a
character.  `name` and `portrait` are `Optional[str]` in Python. -/
structure SpeakerInfo where
  speaker_id : String
  name : Option String
  portrait : Option String
deriving DecidableEq, Repr

/-- One extracted entry.  The source builds dicts with the key sets
determined by the entry type: music entries carry `command` and `raw`,
dialogue entries carry `text`, `speaker_id` and optionally `speaker` and
`portrait`, narration entries carry `text`. -/
inductive Entry where
  | music (command : String) (raw : String)
  | dialogue (text : String) (speaker_id : String)
      (speaker : Option String) (portrait : Option String)
  | narration (text : String)
deriving DecidableEq, Repr

/-- `re.search(r'"([^"]+)"', stripped)` of the source: the leftmost
double quote that is followed by a nonempty run of non-quote characters
and a closing quote; returns the enclosed run. -/
def searchQuoted : List Char → Option (List Char)
  | [] => none
  | c :: rest =>
    if c = '"' ∧ rest.takeWhile (fun x => x ≠ '"') ≠ [] ∧
        ['"'].isPrefixOf (rest.dropWhile (fun x => x ≠ '"')) then
      some (rest.takeWhile (fun x => x ≠ '"'))
    else searchQuoted rest

/-- ASCII model of Python `str.lower()`. -/
def strLower (s : String) : String :=
  String.mk (s.toList.map Char.toLower)

/-- The `speaker` field of a dialogue entry: present exactly when the
catalog has the speaker and its `name` is truthy (non-`None` and
nonempty), mirroring `if speaker_info and speaker_info.name`. -/
def resolveName (sm : String → Option SpeakerInfo) (spk : String) : Option String :=
  match sm spk with
  | some info =>
    match info.name with
    | some n => if n = "" then none else some n
    | none => none
  | none => none

/-- The `portrait` field of a dialogue entry, mirroring
`if speaker_info and speaker_info.portrait`. -/
def resolvePortrait (sm : String → Option SpeakerInfo) (spk : String) : Option String :=
  match sm spk with
  | some info =>
    match info.portrait with
    | some p => if p = "" then none else some p
    | none => none
  | none => none

/-- The body of the `for raw_line in lines` loop of `extract_entries`:
given the current speaker state and one raw line, the (optional) emitted
entry and the new speaker state.  Branches in source order: blank line,
comment, `advchar`, music keyword, `langen`.  Note that the music
keyword is `stripped.split(" ", 1)[0].lower()` — split on the literal
space character — and that the dialogue/narration choice tests Python
truthiness of `current_speaker` (so the empty string would count as
narration). -/
def stepLine (sm : String → Option SpeakerInfo) (mk : List String)
    (cur : Option String) (raw : String) : Option Entry × Option String :=
  let stripped := pyStrip raw
  if stripped = "" then (none, cur)
  else if [';'].isPrefixOf stripped.toList then (none, cur)
  else if "advchar".toList.isPrefixOf stripped.toList then
    match searchQuoted stripped.toList with
    | some code =>
      (none, if code = "-1".toList then none else some (String.mk code))
    | none => (none, cur)
  else
    let keyword := strLower (String.mk (stripped.toList.takeWhile (fun c => c ≠ ' ')))
    if keyword ∈ mk.map strLower then (some (.music keyword stripped), cur)
    else if "langen".toList.isPrefixOf stripped.toList then
      let text := clean_lang_line stripped
      if text = "" then (none, cur)
      else
        match cur with
        | some spk =>
          if spk = "" then (some (.narration text), cur)
          else (some (.dialogue text spk (resolveName sm spk) (resolvePortrait sm spk)), cur)
        | none => (some (.narration text), cur)
    else (none, cur)

/-- The loop of `extract_entries` as a recursion threading the
`current_speaker` state, emitting entries in source order. -/
def extractGo (sm : String → Option SpeakerInfo) (mk : List String) :
    Option String → List String → List Entry
  | _, [] => []
  | cur, raw :: rest =>
    match stepLine sm mk cur raw with
    | (some e, cur2) => e :: extractGo sm mk cur2 rest
    | (none, cur2) => extractGo sm mk cur2 rest

/-- `extract_entries` of the source (`current_speaker` starts as `None`). -/
def extract_entries (lines : List String) (speaker_map : String → Option SpeakerInfo)
    (music_commands : List String) : List Entry :=
  extractGo speaker_map music_commands none lines

/-- Ghost-indexed variant of the extraction loop: lines are paired with
their source positions and every emitted entry is tagged with the
position of the line that produced it.  Used to state order
preservation. -/
def extractGoIdx (sm : String → Option SpeakerInfo) (mk : List String) :
    Option String → List (Nat × String) → List (Nat × Entry)
  | _, [] => []
  | cur, (i, raw) :: rest =>
    match stepLine sm mk cur raw with
    | (some e, cur2) => (i, e) :: extractGoIdx sm mk cur2 rest
    | (none, cur2) => extractGoIdx sm mk cur2 rest

/-- The label-line test of `index_labels`: the stripped line starts
with `*` and has length greater than 1. -/
def isLabelLine (raw : String) : Bool :=
  ['*'].isPrefixOf (pyStripL raw.toList) && decide (1 < (pyStripL raw.toList).length)

/-- The label name of a label line: the stripped line without the
leading `*` marker. -/
def labelOf (raw : String) : String :=
  String.mk ((pyStripL raw.toList).drop 1)

/-- The `for index, raw_line in enumerate(script_lines)` loop of
`index_labels`, with the dict modelled as a function updated in place
(`result[label] = index`, so later definitions overwrite earlier ones). -/
def indexLabelsAux (acc : String → Option Nat) (i : Nat) :
    List String → (String → Option Nat)
  | [] => acc
  | raw :: rest =>
    indexLabelsAux
      (if isLabelLine raw then fun k => if k = labelOf raw then some i else acc k
       else acc)
      (i + 1) rest

/-- `index_labels` of the source. -/
def index_labels (script_lines : List String) : String → Option Nat :=
  indexLabelsAux (fun _ => none) 0 script_lines

/-- The `ChapterPlan` dataclass of the source. -/
structure ChapterPlan where
  chapter_id : String
  title : String
  episode : String
  start_label : String
  end_label : String
deriving DecidableEq, Repr

/-- The failures of `slice_chapter`: the source raises `KeyError`
with a message naming the missing start or end label, or `ValueError`
naming the chapter and its labels when `start >= end`. -/
inductive SliceError where
  | missingStart (label : String)
  | missingEnd (label : String)
  | invalidRange (chapter_id start_label end_label : String)
deriving DecidableEq, Repr

/-- `slice_chapter` of the source: resolve the start label, then the end
label, fail when `start >= end`, and otherwise return
`script_lines[start + 1 : end]`. -/
def slice_chapter (script_lines : List String) (label_indices : String → Option Nat)
    (chapter : ChapterPlan) : Except SliceError (List String) :=
  match label_indices chapter.start_label with
  | none => .error (.missingStart chapter.start_label)
  | some s =>
    match label_indices chapter.end_label with
    | none => .error (.missingEnd chapter.end_label)
    | some e =>
      if e ≤ s then
        .error (.invalidRange chapter.chapter_id chapter.start_label chapter.end_label)
      else .ok ((script_lines.drop (s + 1)).take (e - (s + 1)))

/-- The slicing-then-extraction phase of `main`: label indexing, chapter
slicing, entry extraction.  A slicing failure propagates before any
extraction happens and before any output is produced. -/
def run_pipeline (script_lines : List String) (speakers : String → Option SpeakerInfo)
    (music_commands : List String) (chapter : ChapterPlan) :
    Except SliceError (List Entry) :=
  (slice_chapter script_lines (index_labels script_lines) chapter).map
    (fun seg => extract_entries seg speakers music_commands)

/-- The `speaker_id` referenced by an entry, mirroring
`entry.get("speaker_id")` filtered by Python truthiness. -/
def entrySpeakerId : Entry → Option String
  | .dialogue _ sid _ _ => if sid = "" then none else some sid
  | _ => none

/-- The `used_speakers` computation of `write_output`: one catalog
lookup `speaker_map[speaker_id]` per distinct referenced speaker id.
The direct indexing raises `KeyError` when the id is absent from the
catalog; the error carries the missing id.  The unordered Python set of
referenced ids is modelled by the deduplicated list in entry order. -/
def lookupUsedSpeakers (speaker_map : String → Option SpeakerInfo) :
    List String → Except String (List (String × SpeakerInfo))
  | [] => .ok []
  | sid :: rest =>
    match speaker_map sid with
    | some info => (lookupUsedSpeakers speaker_map rest).map (fun tail => (sid, info) :: tail)
    | none => .error sid

/-- The `used_speakers` dict comprehension of `write_output`, built from
`lookupUsedSpeakers` over the distinct referenced ids. -/
def write_output_speakers (entries : List Entry)
    (speaker_map : String → Option SpeakerInfo) :
    Except String (List (String × SpeakerInfo)) :=
  lookupUsedSpeakers speaker_map (entries.filterMap entrySpeakerId).dedup

/-- Spec-side helper for C8: the first whitespace-delimited token of a
line, as the claim's words describe it. -/
def firstWhitespaceToken (l : List Char) : List Char :=
  l.takeWhile (fun c => ¬ isPySpace c)

/-- Spec-side helper for C2: the string contains a `!` immediately
followed by a word character (hence a substring matching `!\w+`). -/
def hasBangWord : List Char → Bool
  | [] => false
  | '!' :: c :: rest => isWordChar c || hasBangWord (c :: rest)
  | _ :: rest => hasBangWord rest

/-! ### Character-provenance lemmas for the cleaning pipeline -/

theorem toList_mk (l : List Char) : (String.mk l).toList = l := rfl

theorem mem_pyStripL {c : Char} {l : List Char} (h : c ∈ pyStripL l) : c ∈ l := by
  unfold pyStripL at h
  rw [List.mem_reverse] at h
  have h2 := (List.dropWhile_sublist isPySpace).subset h
  rw [List.mem_reverse] at h2
  exact (List.dropWhile_sublist isPySpace).subset h2

theorem mem_replace1 {c p : Char} {repl : List Char} :
    ∀ {l : List Char}, c ∈ replace1 p repl l → c ∈ l ∨ c ∈ repl
  | [], h => by simp [replace1] at h
  | a :: rest, h => by
    simp only [replace1] at h
    split at h
    · rcases List.mem_append.1 h with hr | hrec
      · exact Or.inr hr
      · rcases mem_replace1 hrec with h1 | h2
        · exact Or.inl (List.mem_cons_of_mem _ h1)
        · exact Or.inr h2
    · rcases List.mem_cons.1 h with rfl | hrec
      · exact Or.inl (List.mem_cons_self _ _)
      · rcases mem_replace1 hrec with h1 | h2
        · exact Or.inl (List.mem_cons_of_mem _ h1)
        · exact Or.inr h2

theorem mem_replace1_empty_ne {c p : Char} :
    ∀ {l : List Char}, c ∈ replace1 p [] l → c ≠ p
  | [], h => by simp [replace1] at h
  | a :: rest, h => by
    simp only [replace1] at h
    split at h
    · exact mem_replace1_empty_ne (by simpa using h)
    · rcases List.mem_cons.1 h with rfl | hrec
      · rename_i hne
        exact hne
      · exact mem_replace1_empty_ne hrec

theorem mem_replace2 {c p₁ p₂ : Char} {repl : List Char} :
    ∀ {l : List Char}, c ∈ replace2 p₁ p₂ repl l → c ∈ l ∨ c ∈ repl
  | [], h => by simp [replace2] at h
  | [a], h => by
    simp only [replace2] at h
    exact Or.inl h
  | a :: b :: rest, h => by
    simp only [replace2] at h
    split at h
    · rcases List.mem_append.1 h with hr | hrec
      · exact Or.inr hr
      · rcases mem_replace2 hrec with h1 | h2
        · exact Or.inl (List.mem_cons_of_mem _ (List.mem_cons_of_mem _ h1))
        · exact Or.inr h2
    · rcases List.mem_cons.1 h with rfl | hrec
      · exact Or.inl (List.mem_cons_self _ _)
      · rcases mem_replace2 hrec with h1 | h2
        · exact Or.inl (List.mem_cons_of_mem _ h1)
        · exact Or.inr h2

theorem tryVoiceKw_sublist {kw rest r : List Char} (h : tryVoiceKw kw rest = some r) :
    List.Sublist r rest := by
  unfold tryVoiceKw at h
  split at h
  · cases h
    exact (((List.drop_sublist 1 _).trans
      (List.dropWhile_sublist _)).trans (List.drop_sublist _ _))
  · exact absurd h (by simp)

theorem matchVoiceTag_sublist {l r : List Char} (h : matchVoiceTag l = some r) :
    List.Sublist r l := by
  match l with
  | [] => simp [matchVoiceTag] at h
  | c :: rest =>
    simp only [matchVoiceTag] at h
    split at h
    · split at h
      next heq =>
        cases h
        exact (tryVoiceKw_sublist heq).cons c
      next =>
        split at h
        next heq =>
          cases h
          exact (tryVoiceKw_sublist heq).cons c
        next =>
          split at h
          next heq =>
            cases h
            exact (tryVoiceKw_sublist heq).cons c
          next =>
            exact (tryVoiceKw_sublist h).cons c
    · exact absurd h (by simp)

theorem mem_subVoiceTagsGo {c : Char} :
    ∀ (fuel : Nat) {l : List Char}, c ∈ subVoiceTagsGo fuel l → c ∈ l
  | 0, _, h => h
  | _ + 1, [], h => by simp [subVoiceTagsGo] at h
  | fuel + 1, a :: rest, h => by
    simp only [subVoiceTagsGo] at h
    split at h
    next hsome =>
      exact (matchVoiceTag_sublist hsome).subset (mem_subVoiceTagsGo fuel h)
    next =>
      rcases List.mem_cons.1 h with rfl | hrec
      · exact List.mem_cons_self _ _
      · exact List.mem_cons_of_mem _ (mem_subVoiceTagsGo fuel hrec)

theorem mem_subBangWordGo {c : Char} :
    ∀ (fuel : Nat) {l : List Char}, c ∈ subBangWordGo fuel l → c ∈ l
  | 0, _, h => h
  | _ + 1, [], h => by simp [subBangWordGo] at h
  | fuel + 1, a :: rest, h => by
    simp only [subBangWordGo] at h
    split at h
    · exact List.mem_cons_of_mem _
        ((List.dropWhile_sublist isWordChar).subset (mem_subBangWordGo fuel h))
    · rcases List.mem_cons.1 h with rfl | hrec
      · exact List.mem_cons_self _ _
      · exact List.mem_cons_of_mem _ (mem_subBangWordGo fuel hrec)

theorem mem_subWsRunGo {c : Char} :
    ∀ (fuel : Nat) {l : List Char}, c ∈ subWsRunGo fuel l → c ∈ l ∨ c = ' '
  | 0, _, h => Or.inl h
  | _ + 1, [], h => by simp [subWsRunGo] at h
  | fuel + 1, a :: rest, h => by
    simp only [subWsRunGo] at h
    split at h
    · rcases List.mem_cons.1 h with rfl | hrec
      · exact Or.inr rfl
      · rcases mem_subWsRunGo fuel hrec with h1 | h2
        · exact Or.inl (List.mem_cons_of_mem _
            ((List.dropWhile_sublist isHws).subset h1))
        · exact Or.inr h2
    · rcases List.mem_cons.1 h with rfl | hrec
      · exact Or.inl (List.mem_cons_self _ _)
      · rcases mem_subWsRunGo fuel hrec with h1 | h2
        · exact Or.inl (List.mem_cons_of_mem _ h1)
        · exact Or.inr h2

theorem mem_subNlRunGo {c : Char} :
    ∀ (fuel : Nat) {l : List Char}, c ∈ subNlRunGo fuel l → c ∈ l ∨ c = '\n'
  | 0, _, h => Or.inl h
  | _ + 1, [], h => by simp [subNlRunGo] at h
  | fuel + 1, a :: rest, h => by
    simp only [subNlRunGo] at h
    split at h
    · rcases List.mem_cons.1 h with rfl | h2
      · exact Or.inr rfl
      · rcases List.mem_cons.1 h2 with rfl | h3
        · exact Or.inr rfl
        · rcases mem_subNlRunGo fuel h3 with h4 | h5
          · exact Or.inl (List.mem_cons_of_mem _
              ((List.dropWhile_sublist _).subset h4))
          · exact Or.inr h5
    · rcases List.mem_cons.1 h with rfl | hrec
      · exact Or.inl (List.mem_cons_self _ _)
      · rcases mem_subNlRunGo fuel hrec with h1 | h2
        · exact Or.inl (List.mem_cons_of_mem _ h1)
        · exact Or.inr h2

theorem mem_subColonGo {c : Char} :
    ∀ (fuel : Nat) (b : Bool) {l : List Char}, c ∈ subColonGo fuel b l → c ∈ l
  | 0, _, _, h => h
  | _ + 1, _, [], h => by simp [subColonGo] at h
  | fuel + 1, atStart, a :: rest, h => by
    simp only [subColonGo] at h
    split at h
    · have h1 := mem_subColonGo fuel _ h
      have h2 := (List.dropWhile_sublist isPySpace).subset h1
      have h3 := (List.drop_sublist 1 _).subset h2
      exact (List.dropWhile_sublist isPySpace).subset h3
    · rcases List.mem_cons.1 h with rfl | hrec
      · exact List.mem_cons_self _ _
      · exact List.mem_cons_of_mem _ (mem_subColonGo fuel _ hrec)

theorem mem_subVoiceTags {c : Char} {l : List Char} (h : c ∈ subVoiceTags l) : c ∈ l :=
  mem_subVoiceTagsGo l.length h

theorem mem_subBangWord {c : Char} {l : List Char} (h : c ∈ subBangWord l) : c ∈ l :=
  mem_subBangWordGo l.length h

theorem mem_subWsRun {c : Char} {l : List Char} (h : c ∈ subWsRun l) : c ∈ l ∨ c = ' ' :=
  mem_subWsRunGo l.length h

theorem mem_subNlRun {c : Char} {l : List Char} (h : c ∈ subNlRun l) : c ∈ l ∨ c = '\n' :=
  mem_subNlRunGo l.length h

theorem mem_subLineStartColon {c : Char} {l : List Char} (h : c ∈ subLineStartColon l) :
    c ∈ l :=
  mem_subColonGo l.length true h

/-- Every character of a cleaned body is a non-backslash and is either a
newline or a printable character: step 7 removes every backslash and no
later step introduces one, and the final filtering step keeps exactly
newlines and characters of code point at least 32. -/
theorem cleanBody_chars {c : Char} {l : List Char} (h : c ∈ cleanBody l) :
    c ≠ '\\' ∧ (c = '\n' ∨ 32 ≤ c.toNat) := by
  unfold cleanBody at h
  have h1 := mem_pyStripL h
  rw [List.mem_filter] at h1
  obtain ⟨h2, hpred⟩ := h1
  refine ⟨?_, ?_⟩
  · rcases mem_subNlRun h2 with h3 | rfl
    · have h4 := mem_subLineStartColon h3
      rcases mem_subWsRun h4 with h5 | rfl
      · rcases mem_replace1 h5 with h6 | hq
        · rcases mem_replace2 h6 with h7 | hq2
          · exact mem_replace1_empty_ne (mem_subBangWord h7)
          · simp only [List.mem_singleton] at hq2
            subst hq2
            decide
        · simp only [List.mem_singleton] at hq
          subst hq
          decide
      · decide
    · decide
  · simpa using hpred

/-! ### Characterisation of the label index -/

/-- Position of the last label line defining `name`, specified by
structural recursion: used as the reference value for `index_labels`. -/
def lastLabel : List String → String → Option Nat
  | [], _ => none
  | x :: xs, name =>
    match lastLabel xs name with
    | some j => some (j + 1)
    | none => if isLabelLine x = true ∧ labelOf x = name then some 0 else none

theorem indexLabelsAux_eq (name : String) :
    ∀ (L : List String) (acc : String → Option Nat) (i : Nat),
      indexLabelsAux acc i L name =
        match lastLabel L name with
        | some j => some (i + j)
        | none => acc name
  | [], acc, i => by simp [indexLabelsAux, lastLabel]
  | x :: xs, acc, i => by
    simp only [indexLabelsAux]
    rw [indexLabelsAux_eq name xs _ (i + 1)]
    simp only [lastLabel]
    cases hxs : lastLabel xs name with
    | some j =>
      simp only []
      congr 1
      omega
    | none =>
      simp only []
      by_cases hl : isLabelLine x = true
      · by_cases hn : name = labelOf x
        · simp [hl, hn]
        · have hn2 : ¬(labelOf x = name) := fun hc => hn hc.symm
          simp [hl, hn, hn2]
      · simp [hl]

theorem lastLabel_mem (name : String) :
    ∀ (L : List String) (j : Nat), lastLabel L name = some j →
      ∃ s, L[j]? = some s ∧ isLabelLine s = true ∧ labelOf s = name
  | [], j, h => by simp [lastLabel] at h
  | x :: xs, j, h => by
    simp only [lastLabel] at h
    split at h
    next j2 hxs =>
      simp only [Option.some.injEq] at h
      subst h
      obtain ⟨s, hs, h1, h2⟩ := lastLabel_mem name xs j2 hxs
      exact ⟨s, by simpa using hs, h1, h2⟩
    next hxs =>
      split at h
      next hcond =>
        simp only [Option.some.injEq] at h
        subst h
        exact ⟨x, by simp, hcond.1, hcond.2⟩
      next => simp at h

theorem lastLabel_none_spec (name : String) :
    ∀ (L : List String), lastLabel L name = none ↔
      ∀ (k : Nat) (s : String), L[k]? = some s →
        ¬(isLabelLine s = true ∧ labelOf s = name)
  | [] => by
    constructor
    · intro _ k s hk hm
      rw [List.getElem?_nil] at hk
      cases hk
    · intro _
      rfl
  | x :: xs => by
    constructor
    · intro h k s hk hm
      simp only [lastLabel] at h
      split at h
      next j2 hxs => simp at h
      next hxs =>
        split at h
        next hcond => simp at h
        next hcond =>
          cases k with
          | zero =>
            rw [List.getElem?_cons_zero] at hk
            injection hk with hk2
            subst hk2
            exact hcond hm
          | succ k2 =>
            rw [List.getElem?_cons_succ] at hk
            exact ((lastLabel_none_spec name xs).1 hxs) k2 s hk hm
    · intro hall
      simp only [lastLabel]
      have hxs : lastLabel xs name = none :=
        (lastLabel_none_spec name xs).2
          (fun k s hk => hall (k + 1) s (by rw [List.getElem?_cons_succ]; exact hk))
      have h0 := hall 0 x (by simp)
      simp [hxs, h0]

theorem lastLabel_last (name : String) :
    ∀ (L : List String) (j : Nat), lastLabel L name = some j →
      ∀ (k : Nat) (s : String), j < k → L[k]? = some s →
        ¬(isLabelLine s = true ∧ labelOf s = name)
  | [], j, h => by simp [lastLabel] at h
  | x :: xs, j, h => by
    simp only [lastLabel] at h
    split at h
    next j2 hxs =>
      simp only [Option.some.injEq] at h
      subst h
      intro k s hk hgetk hm
      cases k with
      | zero => omega
      | succ k2 =>
        rw [List.getElem?_cons_succ] at hgetk
        exact lastLabel_last name xs j2 hxs k2 s (by omega) hgetk hm
    next hxs =>
      split at h
      next hcond =>
        simp only [Option.some.injEq] at h
        subst h
        intro k s hk hgetk hm
        cases k with
        | zero => omega
        | succ k2 =>
          rw [List.getElem?_cons_succ] at hgetk
          exact ((lastLabel_none_spec name xs).1 hxs) k2 s hgetk hm
      · simp at h

theorem lastLabel_spec (name : String) (L : List String) (j : Nat) :
    lastLabel L name = some j ↔
      ((∃ s, L[j]? = some s ∧ isLabelLine s = true ∧ labelOf s = name) ∧
       ∀ (k : Nat) (s : String), j < k → L[k]? = some s →
         ¬(isLabelLine s = true ∧ labelOf s = name)) := by
  constructor
  · intro h
    exact ⟨lastLabel_mem name L j h, lastLabel_last name L j h⟩
  · rintro ⟨⟨s, hget, hlab, hname⟩, hafter⟩
    cases hll : lastLabel L name with
    | none =>
      exact absurd ⟨hlab, hname⟩ (((lastLabel_none_spec name L).1 hll) j s hget)
    | some j2 =>
      rcases Nat.lt_trichotomy j2 j with hlt | rfl | hgt
      · exact absurd ⟨hlab, hname⟩ (lastLabel_last name L j2 hll j s hlt hget)
      · rfl
      · obtain ⟨s2, hget2, h1, h2⟩ := lastLabel_mem name L j2 hll
        exact absurd ⟨h1, h2⟩ (hafter j2 s2 hgt hget2)

theorem index_labels_eq_lastLabel (L : List String) (name : String) :
    index_labels L name = lastLabel L name := by
  unfold index_labels
  rw [indexLabelsAux_eq]
  cases h : lastLabel L name <;> simp

/-! ### Lemmas about the extraction loop -/

theorem isPrefixOf_cons_ne_nil {a : Char} {as l : List Char}
    (h : (a :: as).isPrefixOf l = true) : l ≠ [] := by
  cases l with
  | nil => simp [List.isPrefixOf] at h
  | cons c rest => simp

theorem isPrefixOf_head_eq {a b : Char} {as bs l : List Char}
    (ha : (a :: as).isPrefixOf l = true) (hb : (b :: bs).isPrefixOf l = true) :
    a = b := by
  cases l with
  | nil => simp [List.isPrefixOf] at ha
  | cons c rest =>
    simp only [List.isPrefixOf, Bool.and_eq_true, beq_iff_eq] at ha hb
    exact ha.1.trans hb.1.symm

theorem pyStrip_ne_empty {L : String} {a : Char} {as : List Char}
    (h : (a :: as).isPrefixOf (pyStrip L).toList = true) : pyStrip L ≠ "" := by
  intro he
  have : (pyStrip L).toList = [] := by rw [he]; rfl
  exact isPrefixOf_cons_ne_nil h this

theorem extractGo_cons (sm : String → Option SpeakerInfo) (mk : List String)
    (cur : Option String) (L : String) (rest : List String) :
    extractGo sm mk cur (L :: rest) =
      match stepLine sm mk cur L with
      | (some e, cur2) => e :: extractGo sm mk cur2 rest
      | (none, cur2) => extractGo sm mk cur2 rest := rfl

/-- A speaker-change line with a quoted code: no entry, and the state
becomes narration for the sentinel `"-1"` and the quoted code otherwise. -/
theorem stepLine_advchar_some (sm : String → Option SpeakerInfo) (mk : List String)
    (cur : Option String) (L : String) (code : List Char)
    (hadv : "advchar".toList.isPrefixOf (pyStrip L).toList = true)
    (hcode : searchQuoted (pyStrip L).toList = some code) :
    stepLine sm mk cur L =
      (none, if code = "-1".toList then none else some (String.mk code)) := by
  have hadv2 : ('a' :: "dvchar".toList).isPrefixOf (pyStrip L).toList = true := hadv
  have h1 : ¬(pyStrip L = "") := pyStrip_ne_empty hadv2
  have h2 : ¬([';'].isPrefixOf (pyStrip L).toList = true) := by
    intro hp
    exact absurd (isPrefixOf_head_eq hp hadv2) (by decide)
  unfold stepLine
  rw [if_neg h1, if_neg h2, if_pos hadv, hcode]

/-- A speaker-change line without any quoted code: no entry, state
unchanged. -/
theorem stepLine_advchar_none (sm : String → Option SpeakerInfo) (mk : List String)
    (cur : Option String) (L : String)
    (hadv : "advchar".toList.isPrefixOf (pyStrip L).toList = true)
    (hcode : searchQuoted (pyStrip L).toList = none) :
    stepLine sm mk cur L = (none, cur) := by
  have hadv2 : ('a' :: "dvchar".toList).isPrefixOf (pyStrip L).toList = true := hadv
  have h1 : ¬(pyStrip L = "") := pyStrip_ne_empty hadv2
  have h2 : ¬([';'].isPrefixOf (pyStrip L).toList = true) := by
    intro hp
    exact absurd (isPrefixOf_head_eq hp hadv2) (by decide)
  unfold stepLine
  rw [if_neg h1, if_neg h2, if_pos hadv, hcode]

/-- A music-command line: a Music entry carrying the lowercased first
space-delimited token and the stripped line, state unchanged. -/
theorem stepLine_music (sm : String → Option SpeakerInfo) (mk : List String)
    (cur : Option String) (L : String)
    (hne : ¬(pyStrip L = ""))
    (hsc : ¬([';'].isPrefixOf (pyStrip L).toList = true))
    (hadv : ¬("advchar".toList.isPrefixOf (pyStrip L).toList = true))
    (hkw : strLower (String.mk ((pyStrip L).toList.takeWhile (fun c => c ≠ ' ')))
      ∈ mk.map strLower) :
    stepLine sm mk cur L =
      (some (.music
        (strLower (String.mk ((pyStrip L).toList.takeWhile (fun c => c ≠ ' '))))
        (pyStrip L)), cur) := by
  unfold stepLine
  rw [if_neg hne, if_neg hsc, if_neg hadv, if_pos hkw]

/-- A language-channel line with nonempty cleaned text: a Dialogue entry
carrying the current speaker when one is set (and nonempty), otherwise a
Narration entry; state unchanged. -/
theorem stepLine_langen (sm : String → Option SpeakerInfo) (mk : List String)
    (cur : Option String) (L : String)
    (hlang : "langen".toList.isPrefixOf (pyStrip L).toList = true)
    (hkw : strLower (String.mk ((pyStrip L).toList.takeWhile (fun c => c ≠ ' ')))
      ∉ mk.map strLower)
    (htext : ¬(clean_lang_line (pyStrip L) = "")) :
    stepLine sm mk cur L =
      (some (match cur with
        | some spk =>
          if spk = "" then Entry.narration (clean_lang_line (pyStrip L))
          else Entry.dialogue (clean_lang_line (pyStrip L)) spk
            (resolveName sm spk) (resolvePortrait sm spk)
        | none => Entry.narration (clean_lang_line (pyStrip L))), cur) := by
  have hlang2 : ('l' :: "angen".toList).isPrefixOf (pyStrip L).toList = true := hlang
  have h1 : ¬(pyStrip L = "") := pyStrip_ne_empty hlang2
  have h2 : ¬([';'].isPrefixOf (pyStrip L).toList = true) := by
    intro hp
    exact absurd (isPrefixOf_head_eq hp hlang2) (by decide)
  have h3 : ¬("advchar".toList.isPrefixOf (pyStrip L).toList = true) := by
    intro hp
    have hp2 : ('a' :: "dvchar".toList).isPrefixOf (pyStrip L).toList = true := hp
    exact absurd (isPrefixOf_head_eq hp2 hlang2) (by decide)
  unfold stepLine
  rw [if_neg h1, if_neg h2, if_neg h3, if_neg hkw, if_pos hlang, if_neg htext]
  cases cur with
  | none => rfl
  | some spk =>
    by_cases hs : spk = "" <;> simp [hs]

theorem extractGoIdx_map_snd (sm : String → Option SpeakerInfo) (mk : List String) :
    ∀ (il : List (Nat × String)) (cur : Option String),
      (extractGoIdx sm mk cur il).map Prod.snd = extractGo sm mk cur (il.map Prod.snd)
  | [], _ => rfl
  | (i, raw) :: rest, cur => by
    simp only [extractGoIdx, List.map_cons, extractGo]
    cases hstep : stepLine sm mk cur raw with
    | mk oe cur2 =>
      cases oe with
      | some e => simp [hstep, extractGoIdx_map_snd sm mk rest cur2]
      | none => simp [hstep, extractGoIdx_map_snd sm mk rest cur2]

theorem extractGoIdx_fst_sublist (sm : String → Option SpeakerInfo) (mk : List String) :
    ∀ (il : List (Nat × String)) (cur : Option String),
      List.Sublist ((extractGoIdx sm mk cur il).map Prod.fst) (il.map Prod.fst)
  | [], _ => by simp [extractGoIdx]
  | (i, raw) :: rest, cur => by
    simp only [extractGoIdx, List.map_cons]
    cases hstep : stepLine sm mk cur raw with
    | mk oe cur2 =>
      cases oe with
      | some e =>
        simp only [hstep, List.map_cons]
        exact (extractGoIdx_fst_sublist sm mk rest cur2).cons₂ i
      | none =>
        simp only [hstep]
        exact (extractGoIdx_fst_sublist sm mk rest cur2).cons i

/-! ### Claims -/

/-- C1: the spec claims a dialogue line whose speaker code is absent from
the speaker catalog is tolerated through the whole pipeline.  The
extractor does tolerate it (the Dialogue entry carries the speaker_id and
omits name and portrait), but `write_output` then evaluates
`speaker_map[speaker_id]` for every referenced speaker id, which raises
`KeyError` for exactly the tolerated missing id, so the export does not
complete without error.  This theorem evaluates the embedded code at the
failing input. -/
theorem claim_c1_missing_speaker_keyerror :
    extract_entries ["advchar \"ghost\"", "langen Hello."] (fun _ => none) [] =
      [Entry.dialogue "Hello." "ghost" none none] ∧
    write_output_speakers
      (extract_entries ["advchar \"ghost\"", "langen Hello."] (fun _ => none) [])
      (fun _ => none) = Except.error "ghost" :=
  ⟨by decide, rfl⟩

/-- C2 (counterexample): the claim says the cleaner's output never
contains `!` followed by word characters.  On `langen!\x01a` the
inline-directive pass finds no `!\w+` match (the control character is not
a word character), and the final control-character filter then joins the
`!` with the following word character: the output is `!a`. -/
theorem claim_c2_counterexample :
    clean_lang_line "langen!\x01a" = "!a" ∧
    hasBangWord (clean_lang_line "langen!\x01a").toList = true ∧
    clean_lang_line "langen!\x01a" ≠ "" :=
  ⟨by decide, by decide, by decide⟩

/-- C2 (amended): the Line Cleaner is deterministic and total (it is a
pure function), and every character of its output is a non-backslash
that is either a newline or has code point at least 32.  The original
no-`!word` clause fails (see the counterexample). -/
theorem claim_c2_clean_no_backslash_no_control (s : String) (c : Char)
    (h : c ∈ (clean_lang_line s).toList) :
    c ≠ '\\' ∧ (c = '\n' ∨ 32 ≤ c.toNat) := by
  unfold clean_lang_line at h
  split at h
  · rw [toList_mk] at h
    exact cleanBody_chars h
  · rw [show ("" : String).toList = [] from rfl] at h
    cases h

/-- C2 witness: the amended theorem applied at a concrete input. -/
theorem claim_c2_witness :
    'a' ≠ '\\' ∧ ('a' = '\n' ∨ 32 ≤ 'a'.toNat) :=
  claim_c2_clean_no_backslash_no_control "langen ab" 'a' (by decide)

/-- C3: the Label Indexer maps `name` to `i` exactly when line `i` is a
label line (trimmed content starts with `*`, length > 1) whose remainder
after the marker is `name`, and no later line also defines `name`
(duplicate definitions resolve to the last occurrence). -/
theorem claim_c3_index_labels_spec (lines : List String) (name : String) (i : Nat) :
    index_labels lines name = some i ↔
      ((∃ s, lines[i]? = some s ∧ isLabelLine s = true ∧ labelOf s = name) ∧
       ∀ (j : Nat) (s : String), i < j → lines[j]? = some s →
         ¬(isLabelLine s = true ∧ labelOf s = name)) := by
  rw [index_labels_eq_lastLabel]
  exact lastLabel_spec name lines i

/-- C3 witness: the specification applied to a script with a duplicate
label, resolved to the last occurrence (index 2). -/
theorem claim_c3_witness :
    ∃ s, (["*alpha", "x", "*alpha"] : List String)[2]? = some s ∧
      isLabelLine s = true ∧ labelOf s = "alpha" :=
  ((claim_c3_index_labels_spec ["*alpha", "x", "*alpha"] "alpha" 2).mp (by decide)).1

/-- C4: the Chapter Slicer fails exactly when the start label is missing
(MissingLabelError for the start label), the end label is missing
(MissingLabelError for the end label), or the resolved range is empty or
reversed (InvalidRangeError); and a slicing failure short-circuits the
pipeline before any extraction, so no entries are produced. -/
theorem claim_c4_slice_chapter_failures (lines : List String)
    (labels : String → Option Nat) (ch : ChapterPlan)
    (speakers : String → Option SpeakerInfo) (music : List String) :
    ((∃ err, slice_chapter lines labels ch = .error err) ↔
      (labels ch.start_label = none ∨ labels ch.end_label = none ∨
       ∃ s e, labels ch.start_label = some s ∧ labels ch.end_label = some e ∧ e ≤ s)) ∧
    (labels ch.start_label = none →
      slice_chapter lines labels ch = .error (.missingStart ch.start_label)) ∧
    (∀ (s : Nat), labels ch.start_label = some s → labels ch.end_label = none →
      slice_chapter lines labels ch = .error (.missingEnd ch.end_label)) ∧
    (∀ (s e : Nat), labels ch.start_label = some s → labels ch.end_label = some e →
      e ≤ s → slice_chapter lines labels ch =
        .error (.invalidRange ch.chapter_id ch.start_label ch.end_label)) ∧
    (∀ err, slice_chapter lines (index_labels lines) ch = .error err →
      run_pipeline lines speakers music ch = .error err) := by
  refine ⟨⟨?_, ?_⟩, ?_, ?_, ?_, ?_⟩
  · rintro ⟨err, herr⟩
    rcases h1 : labels ch.start_label with _ | s
    · exact Or.inl rfl
    · rcases h2 : labels ch.end_label with _ | e
      · exact Or.inr (Or.inl rfl)
      · refine Or.inr (Or.inr ⟨s, e, rfl, rfl, ?_⟩)
        by_contra hgt
        simp [slice_chapter, h1, h2, hgt] at herr
  · rintro (h1 | h2 | ⟨s, e, h1, h2, hle⟩)
    · exact ⟨.missingStart ch.start_label, by simp [slice_chapter, h1]⟩
    · rcases h1 : labels ch.start_label with _ | s
      · exact ⟨.missingStart ch.start_label, by simp [slice_chapter, h1]⟩
      · exact ⟨.missingEnd ch.end_label, by simp [slice_chapter, h1, h2]⟩
    · exact ⟨.invalidRange ch.chapter_id ch.start_label ch.end_label,
        by simp [slice_chapter, h1, h2, hle]⟩
  · intro h1
    simp [slice_chapter, h1]
  · intro s h1 h2
    simp [slice_chapter, h1, h2]
  · intro s e h1 h2 hle
    simp [slice_chapter, h1, h2, hle]
  · intro err herr
    unfold run_pipeline
    rw [herr]
    rfl

/-- C4 witness: a missing end label produces the end-label error. -/
theorem claim_c4_witness :
    slice_chapter ["*s"] (index_labels ["*s"])
      ⟨"ch", "t", "e", "s", "gone"⟩ = .error (.missingEnd "gone") :=
  (claim_c4_slice_chapter_failures ["*s"] (index_labels ["*s"])
    ⟨"ch", "t", "e", "s", "gone"⟩ (fun _ => none) []).2.2.1 0 (by decide) (by decide)

/-- C5: when both labels resolve and the start index is strictly below
the end index, the slicer succeeds with exactly the lines strictly
between the two label lines: element `j` of the segment is line
`start + 1 + j` of the script for `start + 1 + j < end`, and the segment
has nothing beyond that. -/
theorem claim_c5_slice_chapter_success (lines : List String)
    (labels : String → Option Nat) (ch : ChapterPlan) (s e : Nat)
    (hs : labels ch.start_label = some s) (he : labels ch.end_label = some e)
    (hlt : s < e) :
    ∃ seg, slice_chapter lines labels ch = .ok seg ∧
      ∀ (j : Nat), seg[j]? = if s + 1 + j < e then lines[s + 1 + j]? else none := by
  refine ⟨(lines.drop (s + 1)).take (e - (s + 1)), ?_, ?_⟩
  · simp [slice_chapter, hs, he, show ¬(e ≤ s) from by omega]
  · intro j
    by_cases hj : s + 1 + j < e
    · rw [if_pos hj, List.getElem?_take_of_lt (by omega), List.getElem?_drop]
    · rw [if_neg hj]
      apply List.getElem?_eq_none
      have hlen : ((lines.drop (s + 1)).take (e - (s + 1))).length ≤ e - (s + 1) := by
        rw [List.length_take]
        exact Nat.min_le_left _ _
      omega

/-- C5 witness: slicing a four-line script between its two labels. -/
theorem claim_c5_witness :
    ∃ seg, slice_chapter ["*s", "b", "c", "*e"]
        (index_labels ["*s", "b", "c", "*e"]) ⟨"ch", "t", "e", "s", "e"⟩ = .ok seg ∧
      ∀ (j : Nat), seg[j]? =
        if 0 + 1 + j < 3 then (["*s", "b", "c", "*e"] : List String)[0 + 1 + j]? else none :=
  claim_c5_slice_chapter_success ["*s", "b", "c", "*e"]
    (index_labels ["*s", "b", "c", "*e"]) ⟨"ch", "t", "e", "s", "e"⟩ 0 3
    (by decide) (by decide) (by decide)

/-- C6: a speaker-change line with quoted code `"-1"` switches to
narration regardless of prior state, any other quoted code becomes the
current speaker, and neither produces an entry; a subsequent
language-channel line with nonempty cleaned text and a set speaker
yields a Dialogue entry carrying that speaker_id; concretely,
`advchar "beato"` then `langen Good evening.` gives the Dialogue entry
with speaker_id `beato` and text `Good evening.`. -/
theorem claim_c6_speaker_transitions :
    (∀ (sm : String → Option SpeakerInfo) (mk : List String) (cur : Option String)
        (L : String) (rest : List String) (code : List Char),
      "advchar".toList.isPrefixOf (pyStrip L).toList = true →
      searchQuoted (pyStrip L).toList = some code →
      extractGo sm mk cur (L :: rest) =
        extractGo sm mk (if code = "-1".toList then none else some (String.mk code)) rest) ∧
    (∀ (sm : String → Option SpeakerInfo) (mk : List String) (spk : String)
        (L : String) (rest : List String),
      spk ≠ "" →
      "langen".toList.isPrefixOf (pyStrip L).toList = true →
      strLower (String.mk ((pyStrip L).toList.takeWhile (fun c => c ≠ ' ')))
        ∉ mk.map strLower →
      clean_lang_line (pyStrip L) ≠ "" →
      extractGo sm mk (some spk) (L :: rest) =
        Entry.dialogue (clean_lang_line (pyStrip L)) spk (resolveName sm spk)
          (resolvePortrait sm spk) :: extractGo sm mk (some spk) rest) ∧
    extract_entries ["advchar \"beato\"", "langen Good evening."] (fun _ => none) [] =
      [Entry.dialogue "Good evening." "beato" none none] := by
  refine ⟨?_, ?_, by decide⟩
  · intro sm mk cur L rest code hadv hcode
    rw [extractGo_cons, stepLine_advchar_some sm mk cur L code hadv hcode]
  · intro sm mk spk L rest hspk hlang hkw htext
    rw [extractGo_cons, stepLine_langen sm mk (some spk) L hlang hkw htext]
    simp [hspk]

/-- C6 witness: the sentinel `"-1"` resets any prior speaker. -/
theorem claim_c6_witness :
    extractGo (fun _ => none) [] (some "x") ["advchar \"-1\""] =
      extractGo (fun _ => none) []
        (if "-1".toList = "-1".toList then none else some (String.mk "-1".toList)) [] :=
  claim_c6_speaker_transitions.1 (fun _ => none) [] (some "x") "advchar \"-1\"" []
    "-1".toList (by decide) (by decide)

/-- C7: cleaning `langen:dwave_eng v01:^Hello@/World!sd` yields
`Hello`, newline, `World`, and extracting that single line with no
active speaker emits exactly one Narration entry with that text. -/
theorem claim_c7_example1 :
    clean_lang_line "langen:dwave_eng v01:^Hello@/World!sd" = "Hello\nWorld" ∧
    extract_entries ["langen:dwave_eng v01:^Hello@/World!sd"] (fun _ => none) [] =
      [Entry.narration "Hello\nWorld"] :=
  ⟨by decide, by decide⟩

/-- C8 (counterexample): the claim speaks of the first
whitespace-delimited token, but the source splits on the literal space
character only.  On `bgm\ttheme01` (tab separator) the first
whitespace-delimited token is `bgm`, which is in the music set, yet no
Music entry is emitted (the whole line is the token the code compares). -/
theorem claim_c8_counterexample :
    firstWhitespaceToken (pyStrip "bgm\ttheme01").toList = "bgm".toList ∧
    strLower (String.mk (firstWhitespaceToken (pyStrip "bgm\ttheme01").toList))
      ∈ (["bgm"].map strLower) ∧
    extract_entries ["bgm\ttheme01"] (fun _ => none) ["bgm"] = [] :=
  ⟨by decide, by decide, by decide⟩

/-- C8 (amended): every non-blank, non-comment, non-speaker-change line
whose first SPACE-delimited token (split at the literal space character,
compared case-insensitively) is in the music-command set produces a
Music entry with the lowercased token and the trimmed line, leaving the
speaker state unchanged. -/
theorem claim_c8_music_entry (sm : String → Option SpeakerInfo) (mk : List String)
    (cur : Option String) (L : String) (rest : List String)
    (hne : ¬(pyStrip L = ""))
    (hsc : ¬([';'].isPrefixOf (pyStrip L).toList = true))
    (hadv : ¬("advchar".toList.isPrefixOf (pyStrip L).toList = true))
    (hkw : strLower (String.mk ((pyStrip L).toList.takeWhile (fun c => c ≠ ' ')))
      ∈ mk.map strLower) :
    extractGo sm mk cur (L :: rest) =
      Entry.music
        (strLower (String.mk ((pyStrip L).toList.takeWhile (fun c => c ≠ ' '))))
        (pyStrip L) :: extractGo sm mk cur rest := by
  rw [extractGo_cons, stepLine_music sm mk cur L hne hsc hadv hkw]

/-- C8 witness: `bgm theme01` with `bgm` in the music set. -/
theorem claim_c8_witness :
    extractGo (fun _ => none) ["bgm"] none ["bgm theme01"] =
      Entry.music
        (strLower (String.mk ((pyStrip "bgm theme01").toList.takeWhile (fun c => c ≠ ' '))))
        (pyStrip "bgm theme01") :: extractGo (fun _ => none) ["bgm"] none [] :=
  claim_c8_music_entry (fun _ => none) ["bgm"] none "bgm theme01" []
    (by decide) (by decide) (by decide) (by decide)

/-- C9: entries appear in source order: the ghost-indexed extraction,
whose entry part coincides with `extract_entries`, tags entries with
strictly increasing line positions; the functional result is the
emission sequence itself, so nothing is removed or reordered after
emission. -/
theorem claim_c9_order (sm : String → Option SpeakerInfo) (mk : List String)
    (lines : List String) :
    (extractGoIdx sm mk none lines.enum).map Prod.snd = extract_entries lines sm mk ∧
    ((extractGoIdx sm mk none lines.enum).map Prod.fst).Pairwise (· < ·) := by
  constructor
  · rw [extractGoIdx_map_snd, List.enum_map_snd]
    rfl
  · have h1 := extractGoIdx_fst_sublist sm mk lines.enum none
    rw [List.enum_map_fst] at h1
    exact (List.pairwise_lt_range _).sublist h1

/-- C9 witness: the order theorem applied to a concrete three-line
script. -/
theorem claim_c9_witness :
    ((extractGoIdx (fun _ => none) [] none
      (["langen A", "x", "langen B"] : List String).enum).map Prod.fst).Pairwise (· < ·) :=
  (claim_c9_order (fun _ => none) [] ["langen A", "x", "langen B"]).2

/-- C10 (counterexample): the claim says an `advchar` line without a
quoted code clears the speaker to narration mode.  It does not: the
source leaves `current_speaker` unchanged, so after `advchar "beato"`
then a bare `advchar`, a `langen` line still yields a Dialogue entry for
`beato`, not a Narration entry. -/
theorem claim_c10_counterexample :
    extract_entries ["advchar \"beato\"", "advchar", "langen Hi."] (fun _ => none) [] =
      [Entry.dialogue "Hi." "beato" none none] ∧
    extract_entries ["advchar \"beato\"", "advchar", "langen Hi."] (fun _ => none) [] ≠
      [Entry.narration "Hi."] :=
  ⟨by decide, by decide⟩

/-- C10 (amended): a speaker-change line without a matchable quoted code
is accepted leniently: no error, no entry, and the current speaker state
is left unchanged (not cleared). -/
theorem claim_c10_advchar_unmatched (sm : String → Option SpeakerInfo)
    (mk : List String) (cur : Option String) (L : String) (rest : List String)
    (hadv : "advchar".toList.isPrefixOf (pyStrip L).toList = true)
    (hcode : searchQuoted (pyStrip L).toList = none) :
    extractGo sm mk cur (L :: rest) = extractGo sm mk cur rest := by
  rw [extractGo_cons, stepLine_advchar_none sm mk cur L hadv hcode]

/-- C10 witness: a bare `advchar` line leaves the speaker untouched. -/
theorem claim_c10_witness :
    extractGo (fun _ => none) [] (some "beato") ["advchar"] =
      extractGo (fun _ => none) [] (some "beato") [] :=
  claim_c10_advchar_unmatched (fun _ => none) [] (some "beato") "advchar" []
    (by decide) (by decide)

end Umineko
